import Mathlib

/-!
Verification development for the minimum-flow-parser of the ts-parsec
repository.  The grammar and reduction functions are translated from
src/packages/minimum-flow-parser/src/Parser.ts.  The parser-combinator
primitives (tok, str, seq, alt, apply, opt_sc, rep_sc, list_sc, lrec_sc),
the token interface and the AST node shapes live outside src/ and are
modelled from the specification.
-/

namespace MinFlow

/-- Modelled from the spec: the Tokenizer is an external collaborator.  Token
kinds used by the grammar: the contextual keyword type, boolean keywords,
identifiers, string literals, number literals; every other token (punctuation
and the remaining literal keywords) is dispatched on its raw text, so it is
given one catch-all kind. -/
inductive TokenKind where
  | KEYWORD_type
  | KEYWORD_true
  | KEYWORD_false
  | Identifier
  | StringLiteral
  | NumberLiteral
  | Other
deriving DecidableEq, Repr

/-- Modelled from the spec: a token is a classified piece of input text
tagged with its source position. -/
structure Token where
  kind : TokenKind
  text : String
  pos : Nat
deriving DecidableEq, Repr

/-- Modelled from the spec: the error taxonomy of section 7. -/
inductive ErrorKind where
  | unexpectedToken
  | unexpectedEndOfInput
  | trailingInput
deriving DecidableEq, Repr

/-- Modelled from the spec: a structured failure carrying a position. -/
structure ParseError where
  kind : ErrorKind
  pos : Nat
deriving DecidableEq, Repr

/-- Modelled from the spec: of two failure candidates the one describing the
furthest position reached wins. -/
def betterErr : Option ParseError → Option ParseError → Option ParseError
  | none, e2 => e2
  | some e1, none => some e1
  | some e1, some e2 => if e1.pos < e2.pos then some e2 else some e1

/-- Modelled from the spec: a parse attempt either succeeds with a value and
the unconsumed remainder or fails without consuming input; in both cases the
best failure candidate seen so far is carried along. -/
structure ParseOut (α : Type) where
  result : Option (α × List Token)
  error : Option ParseError

/-- Modelled from the spec: a parser maps a token-stream cursor to an
outcome. -/
def Parser (α : Type) : Type := List Token → ParseOut α

/-- A parser that always fails (used when the recursion fuel is exhausted). -/
def failP {α : Type} : Parser α := fun _ => ⟨none, none⟩

/-- Modelled from the spec: consume one token of the given kind. -/
def tok (k : TokenKind) : Parser Token := fun ts =>
  match ts with
  | [] => ⟨none, some ⟨.unexpectedEndOfInput, 0⟩⟩
  | t :: rest =>
      if t.kind = k then ⟨some (t, rest), none⟩
      else ⟨none, some ⟨.unexpectedToken, t.pos⟩⟩

/-- Modelled from the spec: consume one token whose raw text equals the given
string (literal-text matching). -/
def str (s : String) : Parser Token := fun ts =>
  match ts with
  | [] => ⟨none, some ⟨.unexpectedEndOfInput, 0⟩⟩
  | t :: rest =>
      if t.text = s then ⟨some (t, rest), none⟩
      else ⟨none, some ⟨.unexpectedToken, t.pos⟩⟩

/-- Modelled from the spec: transform the produced value on success. -/
def apply {α β : Type} (p : Parser α) (f : α → β) : Parser β := fun ts =>
  let o := p ts
  ⟨o.result.map (fun ar => (f ar.1, ar.2)), o.error⟩

/-- Modelled from the spec: sequence composition; the second element must
match starting immediately after the end of the first. -/
def seq2 {α β : Type} (p : Parser α) (q : Parser β) : Parser (α × β) := fun ts =>
  let o1 := p ts
  match o1.result with
  | none => ⟨none, o1.error⟩
  | some (a, r) =>
      let o2 := q r
      match o2.result with
      | none => ⟨none, betterErr o1.error o2.error⟩
      | some (b, r2) => ⟨some ((a, b), r2), betterErr o1.error o2.error⟩

/-- Modelled from the spec: try alternatives in order, first success wins,
a failed alternative consumes nothing. -/
def alt2 {α : Type} (p q : Parser α) : Parser α := fun ts =>
  let o1 := p ts
  match o1.result with
  | some r => ⟨some r, o1.error⟩
  | none =>
      let o2 := q ts
      ⟨o2.result, betterErr o1.error o2.error⟩

/-- Modelled from the spec: optional occurrence; never fails. -/
def opt_sc {α : Type} (p : Parser α) : Parser (Option α) := fun ts =>
  let o := p ts
  match o.result with
  | some (a, r) => ⟨some (some a, r), o.error⟩
  | none => ⟨some (none, ts), o.error⟩

/-- Iteration worker for rep_sc; the fuel bounds the number of repetitions
(each successful statement of the grammar consumes at least one token, so
one unit of fuel per remaining token suffices). -/
def repAux {α : Type} (p : Parser α) : Nat → List Token → List α × List Token × Option ParseError
  | 0, ts => ([], ts, none)
  | n + 1, ts =>
      let o := p ts
      match o.result with
      | none => ([], ts, o.error)
      | some (a, r) =>
          let rec3 := repAux p n r
          (a :: rec3.1, rec3.2.1, betterErr o.error rec3.2.2)

/-- Modelled from the spec: apply p repeatedly until it no longer matches,
collecting results in encounter order; never fails. -/
def rep_sc {α : Type} (p : Parser α) : Parser (List α) := fun ts =>
  let r := repAux p (ts.length + 1) ts
  ⟨some (r.1, r.2.1), r.2.2⟩

/-- Modelled from the spec: one or more occurrences of p separated by sep,
without a trailing separator. -/
def list_sc {α β : Type} (p : Parser α) (sep : Parser β) : Parser (List α) :=
  apply (seq2 p (rep_sc (apply (seq2 sep p) Prod.snd))) (fun x => x.1 :: x.2)

/-- Fold worker for lrec_sc: repeatedly parse a trailing suffix and reduce
left-to-right with the combiner. -/
def lrecAux {α β : Type} (q : Parser β) (f : α → β → α) :
    Nat → α → List Token → α × List Token × Option ParseError
  | 0, a, ts => (a, ts, none)
  | n + 1, a, ts =>
      let o := q ts
      match o.result with
      | none => (a, ts, o.error)
      | some (b, r) =>
          let rec3 := lrecAux q f n (f a b) r
          (rec3.1, rec3.2.1, betterErr o.error rec3.2.2)

/-- Modelled from the spec: left-recursion elimination; parse a head, then
zero or more suffixes, reducing left-to-right with the combiner. -/
def lrec_sc {α β : Type} (p : Parser α) (q : Parser β) (f : α → β → α) : Parser α := fun ts =>
  let o := p ts
  match o.result with
  | none => ⟨none, o.error⟩
  | some (a, r) =>
      let rec3 := lrecAux q f (r.length + 1) a r
      ⟨some (rec3.1, rec3.2.1), betterErr o.error rec3.2.2⟩

/-- Modelled from the spec: a possibly dot-qualified identifier naming a
type (AST.ts is outside src/). -/
inductive EntityName where
  | ident (name : String)
  | qualified (parent : EntityName) (name : String)
deriving DecidableEq, Repr

mutual
/-- Modelled from the spec: the tagged-variant family of type nodes
(AST.ts is outside src/).  The extra variant undefinedType models the
TypeScript undefined value that Parser.ts casts into ast.Type when it
builds the placeholder array node. -/
inductive FlowType where
  | PrimitiveType (name : String)
  | LiteralType (text : String)
  | OptionalType (elementType : FlowType)
  | ParenType (elementType : FlowType)
  | ArrayType (isReadonly : Bool) (elementType : FlowType)
  | UnionType (elementTypes : List FlowType)
  | TypeReference (name : EntityName) (typeArguments : List FlowType)
  | DecoratedGenericType (name : String) (elementType : FlowType)
  | ObjectType (isExact : Bool) (mixinTypes : List FlowType) (members : List ObjectMember)
  | undefinedType

/-- Modelled from the spec: object type literal members. -/
inductive ObjectMember where
  | Prop' (isReadonly : Bool) (name : String) (isOptional : Bool) (propType : FlowType)
  | Indexer (isReadonly : Bool) (keyName : String) (keyType : FlowType) (valueType : FlowType)
end

/-- Modelled from the spec: module-level statements (AST.ts is outside
src/); TypeAliasDecl is the single Declaration variant. -/
inductive Statement where
  | TypeAliasDecl (hasExport : Bool) (name : String) (aliasedType : FlowType)
  | UseStrictStat
  | ImportEqualStat (name : String) (source : String)
  | ImportAsStat (name : String) (source : String)
  | ImportNameStat (names : List String) (source : String)

/-- Modelled from the spec: a whole program. -/
structure FlowProgram where
  statements : List Statement

def applyNull (_ : Token) : FlowType := .PrimitiveType "null"

def applyNumber (_ : Token) : FlowType := .PrimitiveType "number"

def applyString (_ : Token) : FlowType := .PrimitiveType "string"

def applyBoolean (_ : Token) : FlowType := .PrimitiveType "boolean"

def applyLiteralType (value : Token) : FlowType := .LiteralType value.text

def applyOptionalType (value : Token × FlowType) : FlowType :=
  match value.2 with
  | .OptionalType e => .OptionalType e
  | e => .OptionalType e

def applyParenType (value : Token × FlowType × Token) : FlowType :=
  .ParenType value.2.1

def applyReadonlyArrayType (value : Token × Token × FlowType × Token) : FlowType :=
  .ArrayType true value.2.2.1

def applyDecoratedGenericType (value : Token × Token × FlowType × Token) : FlowType :=
  .DecoratedGenericType "$ReadOnly" value.2.2.1

def applyTypeReference (value : List Token × Option (Token × List FlowType × Token)) : FlowType :=
  let entity := value.1.foldl
    (fun (e : Option EntityName) (name : Token) =>
      match e with
      | none => some (.ident name.text)
      | some p => some (.qualified p name.text))
    none
  match value.2 with
  | none => .TypeReference (entity.getD (.ident "")) []
  | some typeArguments => .TypeReference (entity.getD (.ident "")) typeArguments.2.1

def applyObjectTypeMixin (value : Token × FlowType) : FlowType := value.2

def applyObjectTypeProp
    (value : Option Token × Token × Option Token × Token × FlowType) : ObjectMember :=
  match value with
  | (isReadonly, name, isOptional, _, propType) =>
      .Prop' isReadonly.isSome name.text isOptional.isSome propType

def applyObjectIndexer
    (value : Option Token × Token × Token × Token × FlowType × Token × Token × FlowType) :
    ObjectMember :=
  match value with
  | (isReadonly, _, keyName, _, keyType, _, _, valueType) =>
      .Indexer isReadonly.isSome keyName.text keyType valueType

/-- The heterogeneous member list of an object type literal holds both mixin
types and proper members (a TypeScript union in the source). -/
def ObjectEntry : Type := FlowType ⊕ ObjectMember

def applyObjectType
    (value : Token × Option Token × Option (List ObjectEntry) ×
             Option Token × Option Token × Token) : FlowType :=
  match value with
  | (_, isExact, members, _, _, _) =>
      .ObjectType isExact.isSome
        (match members with
         | none => []
         | some ms => ms.filterMap (fun m =>
             match m with
             | .inl t => some t
             | .inr _ => none))
        (match members with
         | none => []
         | some ms => ms.filterMap (fun m =>
             match m with
             | .inl _ => none
             | .inr mem => some mem))

def applyArrayTypeLrec (_ : Token × Token) : FlowType :=
  .ArrayType false .undefinedType

def applyUnionHead (value : Option Token × FlowType) : FlowType := value.2

def applyUnionTypeLrec (value : Token × FlowType) : FlowType :=
  .UnionType [value.2]

/-- The fold combiner of Parser.ts: an array suffix has its element slot
filled with the accumulated left operand; a union suffix is merged, appending
to an existing union and otherwise starting a fresh two-element union.  The
default branch of the source throws; it is modelled by the undefinedType
marker and is unreachable for the suffix parsers the grammar uses. -/
def applyTypeLrec (first second : FlowType) : FlowType :=
  match second with
  | .ArrayType ro _ => .ArrayType ro first
  | .UnionType es =>
      match first with
      | .UnionType fs => .UnionType (fs ++ es)
      | f => .UnionType (f :: es)
  | _ => .undefinedType

def applyTypeAliasDecl
    (value : Option Token × Token × Token × Token × FlowType × Token) : Statement :=
  match value with
  | (hasExport, _, name, _, aliasedType, _) =>
      .TypeAliasDecl hasExport.isSome name.text aliasedType

def applyUseStrictStat (_ : Token × Token) : Statement := .UseStrictStat

def applyImportEqualStat
    (value : Token × Token × Token × Token × Token × Token × Token × Token) : Statement :=
  match value with
  | (_, name, _, _, _, source, _, _) => .ImportEqualStat name.text source.text

def applyImportAsStat
    (value : Token × Token × Token × Token × Token × Token × Token) : Statement :=
  match value with
  | (_, _, _, name, _, source, _) => .ImportAsStat name.text source.text

def applyImportNameStat
    (value : Token × Option Token × Token × List Token × Token × Token × Token × Token) :
    Statement :=
  match value with
  | (_, _, _, names, _, _, source, _) =>
      .ImportNameStat (names.map (fun item => item.text)) source.text

def applyProgram (value : List Statement) : FlowProgram := ⟨value⟩

def IDENTIFIER : Parser Token :=
  alt2 (tok .KEYWORD_type) (tok .Identifier)

/-- The member alternative inside the object-type pattern of Parser.ts:
a mixin, a property, or an indexer. -/
def objectEntry (TYPE_n : Parser FlowType) : Parser ObjectEntry :=
  alt2
    (apply (seq2 (str "...") TYPE_n)
      (fun v => (Sum.inl (applyObjectTypeMixin v) : ObjectEntry)))
    (alt2
      (apply
        (seq2 (opt_sc (str "+"))
          (seq2 IDENTIFIER
            (seq2 (opt_sc (str "?")) (seq2 (str ":") TYPE_n))))
        (fun v => (Sum.inr (applyObjectTypeProp v) : ObjectEntry)))
      (apply
        (seq2 (opt_sc (str "+"))
          (seq2 (str "[")
            (seq2 IDENTIFIER
              (seq2 (str ":")
                (seq2 TYPE_n
                  (seq2 (str "]") (seq2 (str ":") TYPE_n)))))))
        (fun v => (Sum.inr (applyObjectIndexer v) : ObjectEntry))))

/-- The pattern bound to the TYPE_TERM rule of Parser.ts, as a function of
the forward-declared TYPE rule it refers to. -/
def termBody (TYPE_n : Parser FlowType) : Parser FlowType :=
  alt2
    (alt2
      (apply (str "null") applyNull)
      (alt2
        (apply (str "number") applyNumber)
        (alt2
          (apply (str "string") applyString)
          (alt2
            (apply (str "boolean") applyBoolean)
            (alt2
              (apply
                (alt2 (tok .StringLiteral)
                  (alt2 (tok .NumberLiteral)
                    (alt2 (tok .KEYWORD_true) (tok .KEYWORD_false))))
                applyLiteralType)
              (alt2
                (apply (seq2 (str "?") TYPE_n) applyOptionalType)
                (apply (seq2 (str "(") (seq2 TYPE_n (str ")"))) applyParenType)))))))
    (alt2
      (alt2
        (apply (seq2 (str "$ReadOnlyArray") (seq2 (str "<") (seq2 TYPE_n (str ">"))))
          applyReadonlyArrayType)
        (alt2
          (apply (seq2 (str "$ReadOnly") (seq2 (str "<") (seq2 TYPE_n (str ">"))))
            applyDecoratedGenericType)
          (apply
            (seq2 (list_sc IDENTIFIER (str "."))
              (opt_sc (seq2 (str "<") (seq2 (list_sc TYPE_n (str ",")) (str ">")))))
            applyTypeReference)))
      (apply
        (seq2 (str "\x7b")
          (seq2 (opt_sc (str "|"))
            (seq2
              (opt_sc (list_sc (objectEntry TYPE_n) (str ",")))
              (seq2 (opt_sc (str ","))
                (seq2 (opt_sc (str "|")) (str "\x7d"))))))
        applyObjectType))

/-- The pattern bound to the TYPE_ARRAY rule of Parser.ts, as a function of
the TYPE_TERM rule. -/
def arrayBody (term : Parser FlowType) : Parser FlowType :=
  lrec_sc term (apply (seq2 (str "[") (str "]")) applyArrayTypeLrec) applyTypeLrec

/-- The pattern bound to the TYPE rule of Parser.ts, as a function of the
TYPE_ARRAY rule. -/
def typeBody (array : Parser FlowType) : Parser FlowType :=
  lrec_sc (apply (seq2 (opt_sc (str "|")) array) applyUnionHead)
    (apply (seq2 (str "|") array) applyUnionTypeLrec) applyTypeLrec

/-- The three mutually recursive type rules of Parser.ts (TYPE_TERM,
TYPE_ARRAY, TYPE), built by recursion on a fuel that bounds the nesting
depth of type expressions inside type terms; every nesting step first
consumes at least one token, so fuel exceeding the stream length is always
sufficient. -/
def typeRules : Nat → Parser FlowType × Parser FlowType × Parser FlowType
  | 0 => (failP, failP, failP)
  | n + 1 =>
      (termBody (typeRules n).2.2,
       arrayBody (termBody (typeRules n).2.2),
       typeBody (arrayBody (termBody (typeRules n).2.2)))

def TYPE_TERM (n : Nat) : Parser FlowType := (typeRules n).1

def TYPE_ARRAY (n : Nat) : Parser FlowType := (typeRules n).2.1

def TYPE (n : Nat) : Parser FlowType := (typeRules n).2.2

def DECL (n : Nat) : Parser Statement :=
  apply
    (seq2 (opt_sc (str "export"))
      (seq2 (str "type")
        (seq2 IDENTIFIER (seq2 (str "=") (seq2 (TYPE n) (str ";"))))))
    applyTypeAliasDecl

def STAT (n : Nat) : Parser Statement :=
  alt2 (DECL n)
    (alt2
      (apply
        (seq2 (str "const")
          (seq2 (tok .Identifier)
            (seq2 (str "=")
              (seq2 (str "require")
                (seq2 (str "(")
                  (seq2 (tok .StringLiteral) (seq2 (str ")") (str ";"))))))))
        applyImportEqualStat)
      (alt2
        (apply
          (seq2 (str "import")
            (seq2 (str "*")
              (seq2 (str "as")
                (seq2 (tok .Identifier)
                  (seq2 (str "from") (seq2 (tok .StringLiteral) (str ";")))))))
          applyImportAsStat)
        (alt2
          (apply
            (seq2 (str "import")
              (seq2 (opt_sc (str "type"))
                (seq2 (str "\x7b")
                  (seq2 (list_sc (tok .Identifier) (str ","))
                    (seq2 (str "\x7d")
                      (seq2 (str "from") (seq2 (tok .StringLiteral) (str ";"))))))))
            applyImportNameStat)
          (apply (seq2 (str "\x27use strict\x27") (str ";")) applyUseStrictStat))))

def PROGRAM (n : Nat) : Parser FlowProgram :=
  apply (rep_sc (STAT n)) applyProgram

/-- Modelled from the spec: the single entry point.  It runs PROGRAM with
sufficient fuel and treats a non-empty remainder as a parse error, reporting
the furthest failure position reached. -/
def parseProgram (ts : List Token) : Except ParseError FlowProgram :=
  let o := PROGRAM (ts.length + 1) ts
  match o.result with
  | some (v, []) => .ok v
  | some (_, t :: _) =>
      .error ((betterErr o.error (some ⟨.trailingInput, t.pos⟩)).getD ⟨.trailingInput, t.pos⟩)
  | none => .error (o.error.getD ⟨.unexpectedEndOfInput, 0⟩)

/-- True when the entry point rejects the stream. -/
def parseFails (ts : List Token) : Bool :=
  match parseProgram ts with
  | .error _ => true
  | .ok _ => false

mutual
/-- All type nodes occurring in a type tree, the root included. -/
def subterms : FlowType → List FlowType
  | .PrimitiveType name => [.PrimitiveType name]
  | .LiteralType text => [.LiteralType text]
  | .OptionalType e => .OptionalType e :: subterms e
  | .ParenType e => .ParenType e :: subterms e
  | .ArrayType ro e => .ArrayType ro e :: subterms e
  | .UnionType es => .UnionType es :: subtermsList es
  | .TypeReference name args => .TypeReference name args :: subtermsList args
  | .DecoratedGenericType name e => .DecoratedGenericType name e :: subterms e
  | .ObjectType ex mx ms => .ObjectType ex mx ms :: (subtermsList mx ++ subtermsMembers ms)
  | .undefinedType => [.undefinedType]

/-- All type nodes occurring in a list of type trees. -/
def subtermsList : List FlowType → List FlowType
  | [] => []
  | t :: ts => subterms t ++ subtermsList ts

/-- All type nodes occurring in a list of object members. -/
def subtermsMembers : List ObjectMember → List FlowType
  | [] => []
  | m :: ms => subtermsMember m ++ subtermsMembers ms

/-- All type nodes occurring in an object member. -/
def subtermsMember : ObjectMember → List FlowType
  | .Prop' _ _ _ t => subterms t
  | .Indexer _ _ k v => subterms k ++ subterms v
end

/-- Every type node of the tree satisfies the given per-node check. -/
def allNodes (p : FlowType → Bool) (t : FlowType) : Bool :=
  (subterms t).all p

/-- Every type node occurring inside an object member satisfies the check. -/
def allNodesMember (p : FlowType → Bool) (m : ObjectMember) : Bool :=
  (subtermsMember m).all p

def isUnion : FlowType → Bool
  | .UnionType _ => true
  | _ => false

def isOptional : FlowType → Bool
  | .OptionalType _ => true
  | _ => false

/-- False exactly on the modelled TypeScript undefined placeholder. -/
def isDefined : FlowType → Bool
  | .undefinedType => false
  | _ => true

/-- Per-node form of the UnionType invariant: at least two element types,
none of which is itself a UnionType. -/
def unionNodeOk : FlowType → Bool
  | .UnionType es => decide (2 ≤ es.length) && es.all (fun e => !isUnion e)
  | _ => true

/-- Per-node form of the OptionalType invariant: an optional node never
directly wraps another optional node. -/
def optionalNodeOk : FlowType → Bool
  | .OptionalType e => !isOptional e
  | _ => true

/-- Per-node form of the ArrayType invariant: the element slot of an array
node holds a defined type, not the placeholder. -/
def arrayNodeOk : FlowType → Bool
  | .ArrayType _ e => isDefined e
  | _ => true

/-- The combined per-node well-formedness check established for every type
node the parser returns. -/
def nodeOk (t : FlowType) : Bool :=
  unionNodeOk t && optionalNodeOk t && arrayNodeOk t && isDefined t

/-- The UnionType shape invariant over a whole tree. -/
def unionInvariant (t : FlowType) : Bool := allNodes unionNodeOk t

/-- No placeholder (undefined) node occurs anywhere in the tree. -/
def fullyResolved (t : FlowType) : Bool := allNodes isDefined t

theorem subtermsList_all (p : FlowType → Bool) :
    ∀ l : List FlowType, (subtermsList l).all p = l.all (fun t => allNodes p t) := by
  intro l
  induction l with
  | nil => rfl
  | cons t ts ih => simp [subtermsList, List.all_append, allNodes, ih]

theorem subtermsMembers_all (p : FlowType → Bool) :
    ∀ l : List ObjectMember, (subtermsMembers l).all p = l.all (fun m => allNodesMember p m) := by
  intro l
  induction l with
  | nil => rfl
  | cons m ms ih => simp [subtermsMembers, List.all_append, allNodesMember, ih]

@[simp] theorem allNodes_Primitive (p : FlowType → Bool) (s : String) :
    allNodes p (.PrimitiveType s) = p (.PrimitiveType s) := by
  simp [allNodes, subterms]

@[simp] theorem allNodes_Literal (p : FlowType → Bool) (s : String) :
    allNodes p (.LiteralType s) = p (.LiteralType s) := by
  simp [allNodes, subterms]

@[simp] theorem allNodes_Optional (p : FlowType → Bool) (e : FlowType) :
    allNodes p (.OptionalType e) = (p (.OptionalType e) && allNodes p e) := by
  simp [allNodes, subterms]

@[simp] theorem allNodes_Paren (p : FlowType → Bool) (e : FlowType) :
    allNodes p (.ParenType e) = (p (.ParenType e) && allNodes p e) := by
  simp [allNodes, subterms]

@[simp] theorem allNodes_Array (p : FlowType → Bool) (ro : Bool) (e : FlowType) :
    allNodes p (.ArrayType ro e) = (p (.ArrayType ro e) && allNodes p e) := by
  simp [allNodes, subterms]

@[simp] theorem allNodes_Union (p : FlowType → Bool) (es : List FlowType) :
    allNodes p (.UnionType es) = (p (.UnionType es) && es.all (fun t => allNodes p t)) := by
  simp [allNodes, subterms, subtermsList_all]

@[simp] theorem allNodes_TypeRef (p : FlowType → Bool) (nm : EntityName) (args : List FlowType) :
    allNodes p (.TypeReference nm args) =
      (p (.TypeReference nm args) && args.all (fun t => allNodes p t)) := by
  simp [allNodes, subterms, subtermsList_all]

@[simp] theorem allNodes_Decorated (p : FlowType → Bool) (nm : String) (e : FlowType) :
    allNodes p (.DecoratedGenericType nm e) =
      (p (.DecoratedGenericType nm e) && allNodes p e) := by
  simp [allNodes, subterms]

@[simp] theorem allNodes_Object (p : FlowType → Bool) (ex : Bool)
    (mx : List FlowType) (ms : List ObjectMember) :
    allNodes p (.ObjectType ex mx ms) =
      (p (.ObjectType ex mx ms) && mx.all (fun t => allNodes p t) &&
        ms.all (fun m => allNodesMember p m)) := by
  simp [allNodes, subterms, List.all_append, subtermsList_all, subtermsMembers_all,
    Bool.and_assoc]

@[simp] theorem allNodes_undef (p : FlowType → Bool) :
    allNodes p .undefinedType = p .undefinedType := by
  simp [allNodes, subterms]

@[simp] theorem allNodesMember_Prop (p : FlowType → Bool) (ro : Bool) (nm : String)
    (opt : Bool) (t : FlowType) :
    allNodesMember p (.Prop' ro nm opt t) = allNodes p t := by
  simp [allNodesMember, subtermsMember, allNodes]

@[simp] theorem allNodesMember_Indexer (p : FlowType → Bool) (ro : Bool) (nm : String)
    (k v : FlowType) :
    allNodesMember p (.Indexer ro nm k v) = (allNodes p k && allNodes p v) := by
  simp [allNodesMember, subtermsMember, allNodes, List.all_append]

/-- The root node is among the subterms, so a tree-wide check yields the
root check. -/
theorem allNodes_head {p : FlowType → Bool} {t : FlowType} (h : allNodes p t = true) :
    p t = true := by
  cases t <;> simp_all

theorem allNodes_mono {p q : FlowType → Bool} (hpq : ∀ u, p u = true → q u = true)
    {t : FlowType} (h : allNodes p t = true) : allNodes q t = true := by
  rw [allNodes, List.all_eq_true] at h ⊢
  exact fun u hu => hpq u (h u hu)

theorem isDefined_of_allNodes {t : FlowType} (h : allNodes nodeOk t = true) :
    isDefined t = true := by
  have := allNodes_head h
  rw [nodeOk] at this
  simp only [Bool.and_eq_true] at this
  exact this.2

theorem failP_result {α : Type} {ts : List Token} {x : α × List Token}
    (h : (failP ts).result = some x) : False := by
  simp [failP] at h

theorem apply_result {α β : Type} {p : Parser α} {f : α → β} {ts : List Token}
    {b : β} {rest : List Token} (h : ((apply p f) ts).result = some (b, rest)) :
    ∃ a, (p ts).result = some (a, rest) ∧ b = f a := by
  simp only [apply] at h
  cases hp : (p ts).result with
  | none => simp [hp] at h
  | some ar =>
      obtain ⟨a, r⟩ := ar
      simp only [hp, Option.map_some', Option.some.injEq, Prod.mk.injEq] at h
      obtain ⟨h1, h2⟩ := h
      subst h2
      exact ⟨a, rfl, h1.symm⟩

theorem seq2_result {α β : Type} {p : Parser α} {q : Parser β} {ts : List Token}
    {ab : α × β} {rest : List Token} (h : ((seq2 p q) ts).result = some (ab, rest)) :
    ∃ mid, (p ts).result = some (ab.1, mid) ∧ (q mid).result = some (ab.2, rest) := by
  obtain ⟨a0, b0⟩ := ab
  simp only [seq2] at h
  cases hp : (p ts).result with
  | none => simp [hp] at h
  | some ar =>
      obtain ⟨a, mid⟩ := ar
      simp only [hp] at h
      cases hq : (q mid).result with
      | none => simp [hq] at h
      | some br =>
          obtain ⟨b, r2⟩ := br
          simp only [hq, Option.some.injEq, Prod.mk.injEq] at h
          obtain ⟨⟨h1, h2⟩, h3⟩ := h
          subst h1; subst h2; subst h3
          exact ⟨mid, rfl, hq⟩

theorem alt2_result {α : Type} {p q : Parser α} {ts : List Token} {x : α × List Token}
    (h : ((alt2 p q) ts).result = some x) :
    (p ts).result = some x ∨ (q ts).result = some x := by
  simp only [alt2] at h
  cases hp : (p ts).result with
  | some r =>
      simp only [hp, Option.some.injEq] at h
      subst h
      exact Or.inl rfl
  | none =>
      simp only [hp] at h
      exact Or.inr h

theorem opt_sc_result {α : Type} {p : Parser α} {ts : List Token} {o : Option α}
    {rest : List Token} (h : ((opt_sc p) ts).result = some (o, rest)) :
    (o = none ∧ rest = ts) ∨ ∃ a, o = some a ∧ (p ts).result = some (a, rest) := by
  simp only [opt_sc] at h
  cases hp : (p ts).result with
  | some ar =>
      obtain ⟨a, r⟩ := ar
      simp only [hp, Option.some.injEq, Prod.mk.injEq] at h
      obtain ⟨h1, h2⟩ := h
      subst h2
      exact Or.inr ⟨a, h1.symm, rfl⟩
  | none =>
      simp only [hp, Option.some.injEq, Prod.mk.injEq] at h
      exact Or.inl ⟨h.1.symm, h.2.symm⟩

theorem opt_sc_none {α : Type} {p : Parser α} {ts rest : List Token}
    (h : ((opt_sc p) ts).result = some (none, rest)) :
    rest = ts ∧ (p ts).result = none := by
  simp only [opt_sc] at h
  cases hp : (p ts).result with
  | some ar =>
      obtain ⟨a, r⟩ := ar
      simp [hp] at h
  | none =>
      simp only [hp, Option.some.injEq, Prod.mk.injEq, true_and] at h
      exact ⟨h.symm, rfl⟩

theorem str_fail {s : String} {ts : List Token} (h : ((str s) ts).result = none) :
    ∀ t tr, ts = t :: tr → t.text ≠ s := by
  intro t tr hts htext
  subst hts
  simp [str, htext] at h

theorem str_result {s : String} {ts : List Token} {t : Token} {rest : List Token}
    (h : ((str s) ts).result = some (t, rest)) : ts = t :: rest ∧ t.text = s := by
  match ts with
  | [] => simp [str] at h
  | t0 :: r0 =>
      simp only [str] at h
      by_cases hs : t0.text = s
      · rw [if_pos hs] at h
        simp only [Option.some.injEq, Prod.mk.injEq] at h
        obtain ⟨h1, h2⟩ := h
        subst h1; subst h2
        exact ⟨rfl, hs⟩
      · rw [if_neg hs] at h; simp at h

theorem tok_result {k : TokenKind} {ts : List Token} {t : Token} {rest : List Token}
    (h : ((tok k) ts).result = some (t, rest)) : ts = t :: rest ∧ t.kind = k := by
  match ts with
  | [] => simp [tok] at h
  | t0 :: r0 =>
      simp only [tok] at h
      by_cases hs : t0.kind = k
      · rw [if_pos hs] at h
        simp only [Option.some.injEq, Prod.mk.injEq] at h
        obtain ⟨h1, h2⟩ := h
        subst h1; subst h2
        exact ⟨rfl, hs⟩
      · rw [if_neg hs] at h; simp at h

theorem repAux_mem {α : Type} {p : Parser α} (Q : α → Prop)
    (hp : ∀ ts a rest, (p ts).result = some (a, rest) → Q a) :
    ∀ fuel ts a, a ∈ (repAux p fuel ts).1 → Q a := by
  intro fuel
  induction fuel with
  | zero => intro ts a ha; simp [repAux] at ha
  | succ n ih =>
      intro ts a ha
      simp only [repAux] at ha
      cases hq : (p ts).result with
      | none => rw [hq] at ha; simp at ha
      | some br =>
          obtain ⟨b, r⟩ := br
          rw [hq] at ha
          simp only [List.mem_cons] at ha
          rcases ha with ha | ha
          · subst ha; exact hp ts a r hq
          · exact ih r a ha

theorem rep_sc_mem {α : Type} {p : Parser α} (Q : α → Prop)
    (hp : ∀ ts a rest, (p ts).result = some (a, rest) → Q a)
    {ts : List Token} {as : List α} {rest : List Token}
    (h : ((rep_sc p) ts).result = some (as, rest)) : ∀ a ∈ as, Q a := by
  intro a ha
  simp only [rep_sc, Option.some.injEq, Prod.mk.injEq] at h
  exact repAux_mem Q hp (ts.length + 1) ts a (by rw [h.1]; exact ha)

theorem list_sc_mem {α β : Type} {p : Parser α} {sep : Parser β} (Q : α → Prop)
    (hp : ∀ ts a rest, (p ts).result = some (a, rest) → Q a)
    {ts : List Token} {as : List α} {rest : List Token}
    (h : ((list_sc p sep) ts).result = some (as, rest)) : ∀ a ∈ as, Q a := by
  obtain ⟨pair, hpair, hcons⟩ := apply_result h
  obtain ⟨mid, h1, h2⟩ := seq2_result hpair
  intro a ha
  rw [hcons] at ha
  simp only [List.mem_cons] at ha
  rcases ha with ha | ha
  · subst ha; exact hp ts pair.1 mid h1
  · refine rep_sc_mem Q ?_ h2 a ha
    intro ts' a' rest' h'
    obtain ⟨pr, hpr, hsnd⟩ := apply_result h'
    obtain ⟨mid', hm1, hm2⟩ := seq2_result hpr
    rw [hsnd]
    exact hp mid' pr.2 rest' hm2

theorem lrecAux_pres {α β : Type} {q : Parser β} {f : α → β → α} (P : α → Prop) (Q : β → Prop)
    (hq : ∀ ts b rest, (q ts).result = some (b, rest) → Q b)
    (hf : ∀ a b, P a → Q b → P (f a b)) :
    ∀ fuel a ts, P a → P (lrecAux q f fuel a ts).1 := by
  intro fuel
  induction fuel with
  | zero => intro a ts h; simpa [lrecAux] using h
  | succ n ih =>
      intro a ts h
      simp only [lrecAux]
      cases hqr : (q ts).result with
      | none => simpa using h
      | some br =>
          obtain ⟨b, r⟩ := br
          simp only
          exact ih (f a b) r (hf a b h (hq ts b r hqr))

theorem lrec_sc_pres {α β : Type} {p : Parser α} {q : Parser β} {f : α → β → α}
    (P : α → Prop) (Q : β → Prop)
    (hp : ∀ ts a rest, (p ts).result = some (a, rest) → P a)
    (hq : ∀ ts b rest, (q ts).result = some (b, rest) → Q b)
    (hf : ∀ a b, P a → Q b → P (f a b)) :
    ∀ ts r rest, ((lrec_sc p q f) ts).result = some (r, rest) → P r := by
  intro ts r rest h
  simp only [lrec_sc] at h
  cases hpr : (p ts).result with
  | none => rw [hpr] at h; simp at h
  | some ar =>
      obtain ⟨a, mid⟩ := ar
      rw [hpr] at h
      simp only [Option.some.injEq, Prod.mk.injEq] at h
      rw [← h.1]
      exact lrecAux_pres P Q hq hf (mid.length + 1) a mid (hp ts a mid hpr)

@[simp] theorem nodeOk_Primitive (s : String) : nodeOk (.PrimitiveType s) = true := rfl

@[simp] theorem nodeOk_Literal (s : String) : nodeOk (.LiteralType s) = true := rfl

@[simp] theorem nodeOk_Optional (e : FlowType) :
    nodeOk (.OptionalType e) = !isOptional e := by
  simp [nodeOk, unionNodeOk, optionalNodeOk, arrayNodeOk, isDefined]

@[simp] theorem nodeOk_Paren (e : FlowType) : nodeOk (.ParenType e) = true := rfl

@[simp] theorem nodeOk_Array (ro : Bool) (e : FlowType) :
    nodeOk (.ArrayType ro e) = isDefined e := by
  simp [nodeOk, unionNodeOk, optionalNodeOk, arrayNodeOk, isDefined]

@[simp] theorem nodeOk_Union (es : List FlowType) :
    nodeOk (.UnionType es) = (decide (2 ≤ es.length) && es.all (fun e => !isUnion e)) := by
  simp [nodeOk, unionNodeOk, optionalNodeOk, arrayNodeOk, isDefined, Bool.and_assoc]

@[simp] theorem nodeOk_TypeRef (nm : EntityName) (args : List FlowType) :
    nodeOk (.TypeReference nm args) = true := rfl

@[simp] theorem nodeOk_Decorated (nm : String) (e : FlowType) :
    nodeOk (.DecoratedGenericType nm e) = true := rfl

@[simp] theorem nodeOk_Object (ex : Bool) (mx : List FlowType) (ms : List ObjectMember) :
    nodeOk (.ObjectType ex mx ms) = true := rfl

@[simp] theorem isUnion_Primitive (s : String) : isUnion (.PrimitiveType s) = false := rfl
@[simp] theorem isUnion_Literal (s : String) : isUnion (.LiteralType s) = false := rfl
@[simp] theorem isUnion_Optional (e : FlowType) : isUnion (.OptionalType e) = false := rfl
@[simp] theorem isUnion_Paren (e : FlowType) : isUnion (.ParenType e) = false := rfl
@[simp] theorem isUnion_Array (ro : Bool) (e : FlowType) :
    isUnion (.ArrayType ro e) = false := rfl
@[simp] theorem isUnion_Union (es : List FlowType) : isUnion (.UnionType es) = true := rfl
@[simp] theorem isUnion_TypeRef (nm : EntityName) (args : List FlowType) :
    isUnion (.TypeReference nm args) = false := rfl
@[simp] theorem isUnion_Decorated (nm : String) (e : FlowType) :
    isUnion (.DecoratedGenericType nm e) = false := rfl
@[simp] theorem isUnion_Object (ex : Bool) (mx : List FlowType) (ms : List ObjectMember) :
    isUnion (.ObjectType ex mx ms) = false := rfl
@[simp] theorem isUnion_undef : isUnion .undefinedType = false := rfl

theorem applyOptionalType_inv {tk : Token} {t : FlowType} (h : allNodes nodeOk t = true) :
    allNodes nodeOk (applyOptionalType (tk, t)) = true ∧
      isUnion (applyOptionalType (tk, t)) = false := by
  cases t <;> simp_all [applyOptionalType, isOptional]

theorem applyTypeReference_inv {v : List Token × Option (Token × List FlowType × Token)}
    (hargs : ∀ x, v.2 = some x → ∀ t ∈ x.2.1, allNodes nodeOk t = true) :
    allNodes nodeOk (applyTypeReference v) = true ∧
      isUnion (applyTypeReference v) = false := by
  obtain ⟨names, oargs⟩ := v
  cases oargs with
  | none => simp [applyTypeReference]
  | some x =>
      obtain ⟨lt, args, gt⟩ := x
      simp only [applyTypeReference, allNodes_TypeRef, nodeOk_TypeRef, Bool.true_and,
        isUnion_TypeRef, List.all_eq_true, and_true]
      intro t ht
      exact hargs (lt, args, gt) rfl t ht

/-- Invariant for one parsed member of an object type literal. -/
def entryInv (en : ObjectEntry) : Prop :=
  match en with
  | .inl t => allNodes nodeOk t = true
  | .inr m => allNodesMember nodeOk m = true

theorem applyObjectType_inv
    {v : Token × Option Token × Option (List ObjectEntry) ×
         Option Token × Option Token × Token}
    (hE : ∀ l, v.2.2.1 = some l → ∀ en ∈ l, entryInv en) :
    allNodes nodeOk (applyObjectType v) = true ∧
      isUnion (applyObjectType v) = false := by
  obtain ⟨t1, ex, oms, tc, tb, t2⟩ := v
  cases oms with
  | none => simp [applyObjectType]
  | some l =>
      simp only [applyObjectType, allNodes_Object, nodeOk_Object, Bool.true_and,
        isUnion_Object, and_true, Bool.and_eq_true, List.all_eq_true]
      constructor
      · intro t ht
        rw [List.mem_filterMap] at ht
        obtain ⟨en, hen, hext⟩ := ht
        have := hE l rfl en hen
        cases en with
        | inl t' =>
            simp only [Option.some.injEq] at hext
            subst hext
            exact this
        | inr m => simp at hext
      · intro m hm
        rw [List.mem_filterMap] at hm
        obtain ⟨en, hen, hext⟩ := hm
        have := hE l rfl en hen
        cases en with
        | inl t' => simp at hext
        | inr m' =>
            simp only [Option.some.injEq] at hext
            subst hext
            exact this

theorem objectEntry_inv {TYPE_n : Parser FlowType}
    (hT : ∀ ts r rest, (TYPE_n ts).result = some (r, rest) → allNodes nodeOk r = true) :
    ∀ ts en rest, ((objectEntry TYPE_n) ts).result = some (en, rest) → entryInv en := by
  intro ts en rest h
  simp only [objectEntry] at h
  rcases alt2_result h with h | h
  · obtain ⟨v, hv, hen⟩ := apply_result h
    obtain ⟨mid, h1, h2⟩ := seq2_result hv
    subst hen
    simpa [entryInv, applyObjectTypeMixin] using hT mid v.2 rest h2
  · rcases alt2_result h with h | h
    · obtain ⟨v, hv, hen⟩ := apply_result h
      obtain ⟨o1, nm, o2, c, pt⟩ := v
      obtain ⟨m1, h1, h2⟩ := seq2_result hv
      obtain ⟨m2, h3, h4⟩ := seq2_result h2
      obtain ⟨m3, h5, h6⟩ := seq2_result h4
      obtain ⟨m4, h7, h8⟩ := seq2_result h6
      subst hen
      simpa [entryInv, applyObjectTypeProp] using hT m4 pt rest h8
    · obtain ⟨v, hv, hen⟩ := apply_result h
      obtain ⟨o1, lb, knm, c1, kt, rb, c2, vt⟩ := v
      obtain ⟨m1, h1, h2⟩ := seq2_result hv
      obtain ⟨m2, h3, h4⟩ := seq2_result h2
      obtain ⟨m3, h5, h6⟩ := seq2_result h4
      obtain ⟨m4, h7, h8⟩ := seq2_result h6
      obtain ⟨m5, h9, h10⟩ := seq2_result h8
      obtain ⟨m6, h11, h12⟩ := seq2_result h10
      obtain ⟨m7, h13, h14⟩ := seq2_result h12
      subst hen
      have hk := hT m4 kt m5 h9
      have hv' := hT m7 vt rest h14
      simp [entryInv, applyObjectIndexer, hk, hv']

theorem termBody_inv {TYPE_n : Parser FlowType}
    (hT : ∀ ts r rest, (TYPE_n ts).result = some (r, rest) → allNodes nodeOk r = true) :
    ∀ ts r rest, ((termBody TYPE_n) ts).result = some (r, rest) →
      allNodes nodeOk r = true ∧ isUnion r = false := by
  intro ts r rest h
  simp only [termBody] at h
  rcases alt2_result h with h | h
  · rcases alt2_result h with h | h
    · obtain ⟨a, ha, hr⟩ := apply_result h
      subst hr
      refine ⟨?_, ?_⟩ <;> simp [applyNull]
    · rcases alt2_result h with h | h
      · obtain ⟨a, ha, hr⟩ := apply_result h
        subst hr
        refine ⟨?_, ?_⟩ <;> simp [applyNumber]
      · rcases alt2_result h with h | h
        · obtain ⟨a, ha, hr⟩ := apply_result h
          subst hr
          refine ⟨?_, ?_⟩ <;> simp [applyString]
        · rcases alt2_result h with h | h
          · obtain ⟨a, ha, hr⟩ := apply_result h
            subst hr
            refine ⟨?_, ?_⟩ <;> simp [applyBoolean]
          · rcases alt2_result h with h | h
            · obtain ⟨a, ha, hr⟩ := apply_result h
              subst hr
              refine ⟨?_, ?_⟩ <;> simp [applyLiteralType]
            · rcases alt2_result h with h | h
              · obtain ⟨a, ha, hr⟩ := apply_result h
                obtain ⟨atk, t2⟩ := a
                obtain ⟨mid, h1, h2⟩ := seq2_result ha
                subst hr
                exact applyOptionalType_inv (hT mid t2 rest h2)
              · obtain ⟨a, ha, hr⟩ := apply_result h
                obtain ⟨mid, h1, h2⟩ := seq2_result ha
                obtain ⟨mid2, h3, h4⟩ := seq2_result h2
                subst hr
                have hA := hT mid a.2.1 mid2 h3
                refine ⟨?_, ?_⟩ <;> simp [applyParenType, hA]
  · rcases alt2_result h with h | h
    · rcases alt2_result h with h | h
      · obtain ⟨a, ha, hr⟩ := apply_result h
        obtain ⟨m1, h1, h2⟩ := seq2_result ha
        obtain ⟨m2, h3, h4⟩ := seq2_result h2
        obtain ⟨m3, h5, h6⟩ := seq2_result h4
        subst hr
        have hA := hT m2 a.2.2.1 m3 h5
        refine ⟨?_, ?_⟩ <;>
          simp [applyReadonlyArrayType, hA, isDefined_of_allNodes hA]
      · rcases alt2_result h with h | h
        · obtain ⟨a, ha, hr⟩ := apply_result h
          obtain ⟨m1, h1, h2⟩ := seq2_result ha
          obtain ⟨m2, h3, h4⟩ := seq2_result h2
          obtain ⟨m3, h5, h6⟩ := seq2_result h4
          subst hr
          have hA := hT m2 a.2.2.1 m3 h5
          refine ⟨?_, ?_⟩ <;> simp [applyDecoratedGenericType, hA]
        · obtain ⟨a, ha, hr⟩ := apply_result h
          obtain ⟨mid, hnames, hopt⟩ := seq2_result ha
          subst hr
          apply applyTypeReference_inv
          intro x hx
          rcases opt_sc_result hopt with ⟨hnone, _⟩ | ⟨xa, hxa, hX⟩
          · rw [hnone] at hx; cases hx
          · rw [hxa] at hx
            obtain rfl : xa = x := by injection hx
            obtain ⟨m1, h1, h2⟩ := seq2_result hX
            obtain ⟨m2, hlist, h3⟩ := seq2_result h2
            intro t ht
            exact list_sc_mem (fun t => allNodes nodeOk t = true) hT hlist t ht
    · obtain ⟨a, ha, hr⟩ := apply_result h
      subst hr
      apply applyObjectType_inv
      intro l hl en hen
      obtain ⟨m1, h1, c1⟩ := seq2_result ha
      obtain ⟨m2, h2, c2⟩ := seq2_result c1
      obtain ⟨m3, hoptlist, c3⟩ := seq2_result c2
      rcases opt_sc_result hoptlist with ⟨hnone, _⟩ | ⟨la, hla, hlist⟩
      · rw [hnone] at hl; cases hl
      · rw [hla] at hl
        obtain rfl : la = l := by injection hl
        exact list_sc_mem entryInv (objectEntry_inv hT) hlist en hen

/-- When the term rule returns an object type node, the isExact flag is
true exactly when the token right after the opening brace is a bar: only
the object alternative produces ObjectType, and applyObjectType reads only
the leading optional bar into isExact. -/
theorem termBody_exact {TYPE_n : Parser FlowType} :
    ∀ (ts : List Token) (ex : Bool) (mx : List FlowType) (ms : List ObjectMember)
      (rest : List Token),
      ((termBody TYPE_n) ts).result = some (.ObjectType ex mx ms, rest) →
      (ex = true ↔ ∃ t0 t1 tr, ts = t0 :: t1 :: tr ∧ t1.text = "|") := by
  intro ts ex mx ms rest h
  simp only [termBody] at h
  rcases alt2_result h with h | h
  · rcases alt2_result h with h | h
    · obtain ⟨a, ha, hr⟩ := apply_result h
      simp [applyNull] at hr
    · rcases alt2_result h with h | h
      · obtain ⟨a, ha, hr⟩ := apply_result h
        simp [applyNumber] at hr
      · rcases alt2_result h with h | h
        · obtain ⟨a, ha, hr⟩ := apply_result h
          simp [applyString] at hr
        · rcases alt2_result h with h | h
          · obtain ⟨a, ha, hr⟩ := apply_result h
            simp [applyBoolean] at hr
          · rcases alt2_result h with h | h
            · obtain ⟨a, ha, hr⟩ := apply_result h
              simp [applyLiteralType] at hr
            · rcases alt2_result h with h | h
              · obtain ⟨a, ha, hr⟩ := apply_result h
                obtain ⟨tk, t2⟩ := a
                cases t2 <;> simp [applyOptionalType] at hr
              · obtain ⟨a, ha, hr⟩ := apply_result h
                simp [applyParenType] at hr
  · rcases alt2_result h with h | h
    · rcases alt2_result h with h | h
      · obtain ⟨a, ha, hr⟩ := apply_result h
        simp [applyReadonlyArrayType] at hr
      · rcases alt2_result h with h | h
        · obtain ⟨a, ha, hr⟩ := apply_result h
          simp [applyDecoratedGenericType] at hr
        · obtain ⟨a, ha, hr⟩ := apply_result h
          obtain ⟨names, oargs⟩ := a
          cases oargs <;> simp [applyTypeReference] at hr
    · obtain ⟨a, ha, hr⟩ := apply_result h
      obtain ⟨tobr, ex0, oms, tcm, tbr, tcl⟩ := a
      obtain ⟨mid1, h1, c1⟩ := seq2_result ha
      obtain ⟨mid2, h2, c2⟩ := seq2_result c1
      obtain ⟨hts, hbrace⟩ := str_result h1
      simp only [applyObjectType] at hr
      have hex : ex = ex0.isSome := by
        injection hr
      cases ex0 with
      | none =>
          have hn := opt_sc_none h2
          constructor
          · intro hextrue
            rw [hex] at hextrue
            simp at hextrue
          · rintro ⟨t0', t1, tr, hts', hbar⟩
            exfalso
            rw [hts'] at hts
            injection hts with he1 he2
            exact str_fail hn.2 t1 tr he2.symm hbar
      | some tb1 =>
          constructor
          · intro _
            rcases opt_sc_result h2 with ⟨hnone, _⟩ | ⟨tb2, htb2, hstr⟩
            · exact Option.noConfusion hnone
            · injection htb2 with htb2'
              subst htb2'
              obtain ⟨hm1, hbar⟩ := str_result hstr
              exact ⟨tobr, tb1, mid2, by rw [hts, hm1], hbar⟩
          · intro _
            rw [hex]
            rfl

theorem arrayBody_inv {term : Parser FlowType}
    (ht : ∀ ts r rest, (term ts).result = some (r, rest) →
      allNodes nodeOk r = true ∧ isUnion r = false) :
    ∀ ts r rest, ((arrayBody term) ts).result = some (r, rest) →
      allNodes nodeOk r = true ∧ isUnion r = false := by
  intro ts r rest h
  simp only [arrayBody] at h
  refine lrec_sc_pres (fun a => allNodes nodeOk a = true ∧ isUnion a = false)
    (fun b => b = .ArrayType false .undefinedType) ht ?_ ?_ ts r rest h
  · intro ts' b rest' hb
    obtain ⟨a, _, hfb⟩ := apply_result hb
    rw [hfb]; rfl
  · intro a b hP hQ
    subst hQ
    obtain ⟨hA, _⟩ := hP
    refine ⟨?_, ?_⟩ <;> simp [applyTypeLrec, hA, isDefined_of_allNodes hA]

theorem applyTypeLrec_union_inv {a x : FlowType} (hA : allNodes nodeOk a = true)
    (hx1 : allNodes nodeOk x = true) (hx2 : isUnion x = false) :
    allNodes nodeOk (applyTypeLrec a (.UnionType [x])) = true := by
  cases a with
  | UnionType fs =>
      simp only [applyTypeLrec, allNodes_Union, nodeOk_Union, Bool.and_eq_true,
        List.all_append, List.all_cons, List.all_nil, decide_eq_true_eq,
        List.length_append, List.length_cons, List.length_nil, Bool.and_true,
        Bool.not_eq_true'] at hA ⊢
      obtain ⟨⟨hlen, hnu⟩, hall⟩ := hA
      exact ⟨⟨by omega, hnu, hx2⟩, hall, hx1⟩
  | _ =>
      simp_all [applyTypeLrec]

theorem typeBody_inv {array : Parser FlowType}
    (ha : ∀ ts r rest, (array ts).result = some (r, rest) →
      allNodes nodeOk r = true ∧ isUnion r = false) :
    ∀ ts r rest, ((typeBody array) ts).result = some (r, rest) →
      allNodes nodeOk r = true := by
  intro ts r rest h
  simp only [typeBody] at h
  refine lrec_sc_pres (fun a => allNodes nodeOk a = true)
    (fun b => ∃ x, b = .UnionType [x] ∧ allNodes nodeOk x = true ∧ isUnion x = false)
    ?_ ?_ ?_ ts r rest h
  · intro ts' a rest' h'
    obtain ⟨v, hv, hA⟩ := apply_result h'
    obtain ⟨mid, _, h2⟩ := seq2_result hv
    subst hA
    exact (ha mid v.2 rest' h2).1
  · intro ts' b rest' h'
    obtain ⟨v, hv, hB⟩ := apply_result h'
    obtain ⟨mid, _, h2⟩ := seq2_result hv
    subst hB
    exact ⟨v.2, rfl, (ha mid v.2 rest' h2).1, (ha mid v.2 rest' h2).2⟩
  · intro a b hA hB
    obtain ⟨x, hb, hx1, hx2⟩ := hB
    subst hb
    exact applyTypeLrec_union_inv hA hx1 hx2

/-- The joint invariant of the three type rules: every type AST a rule
returns satisfies the per-node well-formedness check throughout, and the
term and array layers never return a bare union node. -/
theorem typeRules_inv : ∀ n : Nat,
    (∀ ts r rest, ((TYPE_TERM n) ts).result = some (r, rest) →
        allNodes nodeOk r = true ∧ isUnion r = false) ∧
    (∀ ts r rest, ((TYPE_ARRAY n) ts).result = some (r, rest) →
        allNodes nodeOk r = true ∧ isUnion r = false) ∧
    (∀ ts r rest, ((TYPE n) ts).result = some (r, rest) → allNodes nodeOk r = true) := by
  intro n
  induction n with
  | zero =>
      refine ⟨?_, ?_, ?_⟩ <;> intro ts r rest h <;>
        simp [TYPE_TERM, TYPE_ARRAY, TYPE, typeRules, failP] at h
  | succ n ih =>
      have hterm := termBody_inv ih.2.2
      have harr := arrayBody_inv hterm
      have htype := typeBody_inv harr
      have e1 : TYPE_TERM (n + 1) = termBody (TYPE n) := rfl
      have e2 : TYPE_ARRAY (n + 1) = arrayBody (termBody (TYPE n)) := rfl
      have e3 : TYPE (n + 1) = typeBody (arrayBody (termBody (TYPE n))) := rfl
      refine ⟨?_, ?_, ?_⟩
      · intro ts r rest h
        rw [e1] at h
        exact hterm ts r rest h
      · intro ts r rest h
        rw [e2] at h
        exact harr ts r rest h
      · intro ts r rest h
        rw [e3] at h
        exact htype ts r rest h

theorem nodeOk_implies_union {u : FlowType} (h : nodeOk u = true) :
    unionNodeOk u = true := by
  rw [nodeOk] at h
  simp only [Bool.and_eq_true] at h
  exact h.1.1.1

theorem nodeOk_implies_optional {u : FlowType} (h : nodeOk u = true) :
    optionalNodeOk u = true := by
  rw [nodeOk] at h
  simp only [Bool.and_eq_true] at h
  exact h.1.1.2

theorem nodeOk_implies_array {u : FlowType} (h : nodeOk u = true) :
    arrayNodeOk u = true := by
  rw [nodeOk] at h
  simp only [Bool.and_eq_true] at h
  exact h.1.2

theorem nodeOk_implies_defined {u : FlowType} (h : nodeOk u = true) :
    isDefined u = true := by
  rw [nodeOk] at h
  simp only [Bool.and_eq_true] at h
  exact h.2

/-- The question-mark token of the optional-type syntax. -/
def qmTok : Token := ⟨.Other, "?", 0⟩

/-- On a stream headed by a question mark, the term rule takes the
optional-type alternative: it consumes the question mark, parses a nested
type, and reduces with applyOptionalType. -/
theorem termBody_qmark {p : Parser FlowType} {ts : List Token} {t : FlowType}
    {rest : List Token} (h : (p ts).result = some (t, rest)) :
    ((termBody p) (qmTok :: ts)).result = some (applyOptionalType (qmTok, t), rest) := by
  simp [termBody, alt2, apply, seq2, opt_sc, str, tok, qmTok, h, IDENTIFIER,
    list_sc, rep_sc, repAux]

/-- When the term layer consumed the whole stream, the array layer returns
its result unchanged: no trailing bracket pair can be found. -/
theorem arrayBody_done {term : Parser FlowType} {ts : List Token} {t : FlowType}
    (h : (term ts).result = some (t, [])) :
    ((arrayBody term) ts).result = some (t, []) := by
  simp [arrayBody, lrec_sc, h, lrecAux, apply, seq2, str]

/-- When the array layer consumed the whole stream and the stream does not
begin with a union bar, the union layer returns its result unchanged. -/
theorem typeBody_of_array {array : Parser FlowType} {t0 : Token} {tr : List Token}
    {t : FlowType} (hne : t0.text ≠ "|")
    (h : (array (t0 :: tr)).result = some (t, [])) :
    ((typeBody array) (t0 :: tr)).result = some (t, []) := by
  simp [typeBody, lrec_sc, lrecAux, apply, seq2, opt_sc, str, h, hne, applyUnionHead]

def identTok (s : String) (p : Nat) : Token := ⟨.Identifier, s, p⟩

def puncTok (s : String) (p : Nat) : Token := ⟨.Other, s, p⟩

def typeKw (p : Nat) : Token := ⟨.KEYWORD_type, "type", p⟩

def strLit (s : String) (p : Nat) : Token := ⟨.StringLiteral, s, p⟩

/-- Token stream for the type expression A | B | C. -/
def toksUnionABC : List Token :=
  [identTok "A" 0, puncTok "|" 1, identTok "B" 2, puncTok "|" 3, identTok "C" 4]

/-- Token stream for the type expression ( A | B ) | C. -/
def toksParenUnion : List Token :=
  [puncTok "(" 0, identTok "A" 1, puncTok "|" 2, identTok "B" 3, puncTok ")" 4,
   puncTok "|" 5, identTok "C" 6]

/-- Token stream for the type expression A | B [ ]. -/
def toksArrayUnion : List Token :=
  [identTok "A" 0, puncTok "|" 1, identTok "B" 2, puncTok "[" 3, puncTok "]" 4]

/-- Token stream for the type expression T [ ] [ ]. -/
def toksDoubleArray : List Token :=
  [identTok "T" 0, puncTok "[" 1, puncTok "]" 2, puncTok "[" 3, puncTok "]" 4]

/-- Token stream for the type expression a . b . c. -/
def toksDotted : List Token :=
  [identTok "a" 0, puncTok "." 1, identTok "b" 2, puncTok "." 3, identTok "c" 4]

/-- Token stream for the exact object type with both bar delimiters. -/
def toksObjBoth : List Token :=
  [puncTok "\x7b" 0, puncTok "|" 1, identTok "a" 2, puncTok ":" 3,
   identTok "number" 4, puncTok "|" 5, puncTok "\x7d" 6]

/-- Token stream for the plain object type without bar delimiters. -/
def toksObjNone : List Token :=
  [puncTok "\x7b" 0, identTok "a" 1, puncTok ":" 2, identTok "number" 3, puncTok "\x7d" 4]

/-- Token stream for an object type with only the leading bar delimiter. -/
def toksObjLead : List Token :=
  [puncTok "\x7b" 0, puncTok "|" 1, identTok "a" 2, puncTok ":" 3,
   identTok "number" 4, puncTok "\x7d" 5]

/-- Token stream for an object type with only the trailing bar delimiter. -/
def toksObjTrail : List Token :=
  [puncTok "\x7b" 0, identTok "a" 1, puncTok ":" 2, identTok "number" 3,
   puncTok "|" 4, puncTok "\x7d" 5]

/-- Token stream for the program: export type A = number ; -/
def toksExportAlias : List Token :=
  [puncTok "export" 0, typeKw 1, identTok "A" 2, puncTok "=" 3,
   identTok "number" 4, puncTok ";" 5]

/-- Token stream for the program: type A = number ; -/
def toksPlainAlias : List Token :=
  [typeKw 0, identTok "A" 1, puncTok "=" 2, identTok "number" 3, puncTok ";" 4]

/-- Token stream for the malformed program: type A = ; -/
def toksBadAlias : List Token :=
  [typeKw 0, identTok "A" 1, puncTok "=" 2, puncTok ";" 3]

/-- Token stream for the program: type type = number ; -/
def toksTypeType : List Token :=
  [typeKw 0, typeKw 1, puncTok "=" 2, identTok "number" 3, puncTok ";" 4]

/-- Token stream for the type expression a . type. -/
def toksDotType : List Token :=
  [identTok "a" 0, puncTok "." 1, typeKw 2]

/-- Token stream for an object type whose property is named type. -/
def toksObjTypeProp : List Token :=
  [puncTok "\x7b" 0, typeKw 1, puncTok ":" 2, identTok "number" 3, puncTok "\x7d" 4]

/-- Token stream for: const type = require ( ... ) ; with the keyword type
in the imported-name position. -/
def toksConstRequire : List Token :=
  [puncTok "const" 0, typeKw 1, puncTok "=" 2, puncTok "require" 3,
   puncTok "(" 4, strLit "x" 5, puncTok ")" 6, puncTok ";" 7]

/-- Token stream for: import * as type from ... ; -/
def toksImportStar : List Token :=
  [puncTok "import" 0, puncTok "*" 1, puncTok "as" 2, typeKw 3,
   puncTok "from" 4, strLit "x" 5, puncTok ";" 6]

/-- Token stream for: import brace type brace from ... ; -/
def toksImportBrace : List Token :=
  [puncTok "import" 0, puncTok "\x7b" 1, typeKw 2, puncTok "\x7d" 3,
   puncTok "from" 4, strLit "x" 5, puncTok ";" 6]

/-- Claim C1: whenever the TYPE rule succeeds, every UnionType node of the
returned AST has at least two element types, none of which is itself a
UnionType; parsing A | B | C yields one flat three-element union, while
parsing ( A | B ) | C yields a two-element union whose first element is the
ParenType wrapping the inner two-element union. -/
theorem c1_union_flattening :
    (∀ (n : Nat) (ts : List Token) (r : FlowType) (rest : List Token),
        ((TYPE n) ts).result = some (r, rest) → unionInvariant r = true) ∧
    ((TYPE 2) toksUnionABC).result =
      some (.UnionType [.TypeReference (.ident "A") [], .TypeReference (.ident "B") [],
        .TypeReference (.ident "C") []], []) ∧
    ((TYPE 3) toksParenUnion).result =
      some (.UnionType [.ParenType (.UnionType [.TypeReference (.ident "A") [],
        .TypeReference (.ident "B") []]), .TypeReference (.ident "C") []], []) := by
  refine ⟨?_, rfl, rfl⟩
  intro n ts r rest h
  rw [unionInvariant]
  exact allNodes_mono (fun u hu => nodeOk_implies_union hu)
    ((typeRules_inv n).2.2 ts r rest h)

/-- Witness for claim C1 at the concrete input A | B | C. -/
theorem c1_union_flattening_witness :
    unionInvariant (FlowType.UnionType [.TypeReference (.ident "A") [],
      .TypeReference (.ident "B") [], .TypeReference (.ident "C") []]) = true :=
  c1_union_flattening.1 2 toksUnionABC _ [] (by rfl)

/-- Claim C2: for a type expression parsed by TYPE to a non-optional AST u,
prefixing one question mark parses to a single OptionalType wrapping u, and
prefixing two question marks parses to exactly the same AST: the doubled
optional collapses and an OptionalType never directly wraps another
OptionalType. -/
theorem c2_optional_collapse :
    ∀ (n : Nat) (ts : List Token) (u : FlowType),
      ((TYPE n) ts).result = some (u, []) → isOptional u = false →
      ((TYPE_TERM (n + 1)) (qmTok :: ts)).result = some (.OptionalType u, []) ∧
      ((TYPE_TERM (n + 2)) (qmTok :: qmTok :: ts)).result = some (.OptionalType u, []) := by
  intro n ts u h hu
  have e1 : TYPE_TERM (n + 1) = termBody (TYPE n) := rfl
  have hopt : applyOptionalType (qmTok, u) = .OptionalType u := by
    cases u <;> simp_all [applyOptionalType, isOptional]
  have c1 : ((TYPE_TERM (n + 1)) (qmTok :: ts)).result = some (.OptionalType u, []) := by
    rw [e1, ← hopt]
    exact termBody_qmark h
  refine ⟨c1, ?_⟩
  have e2 : TYPE (n + 1) = typeBody (arrayBody (termBody (TYPE n))) := rfl
  have harr : ((arrayBody (termBody (TYPE n))) (qmTok :: ts)).result =
      some (.OptionalType u, []) := by
    refine arrayBody_done ?_
    rw [← e1]
    exact c1
  have htyp : ((TYPE (n + 1)) (qmTok :: ts)).result = some (.OptionalType u, []) := by
    rw [e2]
    exact typeBody_of_array (by decide) harr
  have e3 : TYPE_TERM (n + 2) = termBody (TYPE (n + 1)) := rfl
  have c2' : ((TYPE_TERM (n + 2)) (qmTok :: qmTok :: ts)).result =
      some (applyOptionalType (qmTok, .OptionalType u), []) := by
    rw [e3]
    exact termBody_qmark htyp
  exact c2'

/-- Witness for claim C2 at the atomic type number. -/
theorem c2_optional_collapse_witness :
    ((TYPE_TERM 2) (qmTok :: [identTok "number" 1])).result =
      some (.OptionalType (.PrimitiveType "number"), []) ∧
    ((TYPE_TERM 3) (qmTok :: qmTok :: [identTok "number" 1])).result =
      some (.OptionalType (.PrimitiveType "number"), []) :=
  c2_optional_collapse 1 [identTok "number" 1] (.PrimitiveType "number") (by rfl) (by rfl)

/-- Claim C3: the array suffix binds tighter than the union bar, and the
suffix fold is left associative: A | B [ ] parses to a union of A and an
array of B, and T [ ] [ ] parses to an array of an array of T. -/
theorem c3_array_precedence :
    ((TYPE 1) toksArrayUnion).result =
      some (.UnionType [.TypeReference (.ident "A") [],
        .ArrayType false (.TypeReference (.ident "B") [])], []) ∧
    ((TYPE 1) toksDoubleArray).result =
      some (.ArrayType false (.ArrayType false (.TypeReference (.ident "T") [])), []) :=
  ⟨rfl, rfl⟩

/-- Claim C4: whenever the TYPE or TYPE_ARRAY rule succeeds, the returned
AST contains no placeholder node at all; in particular every ArrayType node
has a defined element type, so the placeholder created inside the fold step
is always filled before the node escapes. -/
theorem c4_array_resolved :
    (∀ (n : Nat) (ts : List Token) (r : FlowType) (rest : List Token),
        ((TYPE n) ts).result = some (r, rest) →
        fullyResolved r = true ∧ allNodes arrayNodeOk r = true) ∧
    (∀ (n : Nat) (ts : List Token) (r : FlowType) (rest : List Token),
        ((TYPE_ARRAY n) ts).result = some (r, rest) →
        fullyResolved r = true ∧ allNodes arrayNodeOk r = true) := by
  constructor
  · intro n ts r rest h
    have hm := (typeRules_inv n).2.2 ts r rest h
    refine ⟨?_, ?_⟩
    · rw [fullyResolved]
      exact allNodes_mono (fun u hu => nodeOk_implies_defined hu) hm
    · exact allNodes_mono (fun u hu => nodeOk_implies_array hu) hm
  · intro n ts r rest h
    have hm := ((typeRules_inv n).2.1 ts r rest h).1
    refine ⟨?_, ?_⟩
    · rw [fullyResolved]
      exact allNodes_mono (fun u hu => nodeOk_implies_defined hu) hm
    · exact allNodes_mono (fun u hu => nodeOk_implies_array hu) hm

/-- Witness for claim C4 at the concrete input T [ ] [ ]. -/
theorem c4_array_resolved_witness :
    fullyResolved (FlowType.ArrayType false
      (.ArrayType false (.TypeReference (.ident "T") []))) = true ∧
    allNodes arrayNodeOk (FlowType.ArrayType false
      (.ArrayType false (.TypeReference (.ident "T") []))) = true :=
  c4_array_resolved.2 1 toksDoubleArray _ [] (by rfl)

/-- Claim C5: parsing a . b . c as a type yields a TypeReference whose
entity name nests left-to-right, the first identifier innermost and the
last segment outermost, with empty type arguments. -/
theorem c5_qualified_name :
    ((TYPE 1) toksDotted).result =
      some (.TypeReference (.qualified (.qualified (.ident "a") "b") "c") [], []) :=
  rfl

/-- Counterexample to claim C6: an object literal with only the leading bar
and no trailing bar still parses with isExact true, so isExact is not
equivalent to both delimiters being present. -/
theorem c6_exactness_counterexample :
    ((TYPE 2) toksObjLead).result =
      some (.ObjectType true [] [.Prop' false "a" false (.PrimitiveType "number")], []) ∧
    ((TYPE 2) toksObjLead).result ≠
      some (.ObjectType false [] [.Prop' false "a" false (.PrimitiveType "number")], []) := by
  refine ⟨rfl, ?_⟩
  intro hcontra
  have h1 : ((TYPE 2) toksObjLead).result =
      some (.ObjectType true [] [.Prop' false "a" false (.PrimitiveType "number")], []) := rfl
  rw [h1] at hcontra
  simp at hcontra

/-- Claim C6 as amended: for every object type literal accepted by the
atomic type parser, isExact is true exactly when the leading bar, the token
right after the opening brace, is present; the trailing bar is accepted but
ignored.  The two examples of the original claim still hold, and each
concrete parse yields a single property named a of primitive type number,
not readonly and not optional. -/
theorem c6_exactness_amended :
    (∀ (n : Nat) (ts : List Token) (ex : Bool) (mx : List FlowType)
        (ms : List ObjectMember) (rest : List Token),
        ((TYPE_TERM n) ts).result = some (.ObjectType ex mx ms, rest) →
        (ex = true ↔ ∃ t0 t1 tr, ts = t0 :: t1 :: tr ∧ t1.text = "|")) ∧
    ((TYPE 2) toksObjBoth).result =
      some (.ObjectType true [] [.Prop' false "a" false (.PrimitiveType "number")], []) ∧
    ((TYPE 2) toksObjNone).result =
      some (.ObjectType false [] [.Prop' false "a" false (.PrimitiveType "number")], []) ∧
    ((TYPE 2) toksObjLead).result =
      some (.ObjectType true [] [.Prop' false "a" false (.PrimitiveType "number")], []) ∧
    ((TYPE 2) toksObjTrail).result =
      some (.ObjectType false [] [.Prop' false "a" false (.PrimitiveType "number")], []) := by
  refine ⟨?_, rfl, rfl, rfl, rfl⟩
  intro n ts ex mx ms rest h
  cases n with
  | zero => simp [TYPE_TERM, typeRules, failP] at h
  | succ n =>
      have e1 : TYPE_TERM (n + 1) = termBody (TYPE n) := rfl
      rw [e1] at h
      exact termBody_exact ts ex mx ms rest h

/-- Witness for the amended claim C6 at the leading-bar-only input: the
parsed isExact flag is true and the stream indeed carries a bar right after
the opening brace. -/
theorem c6_exactness_amended_witness :
    true = true ↔ ∃ t0 t1 tr, toksObjLead = t0 :: t1 :: tr ∧ t1.text = "|" :=
  c6_exactness_amended.1 2 toksObjLead true []
    [.Prop' false "a" false (.PrimitiveType "number")] [] (by rfl)

/-- Claim C7: the program export type A = number ; parses to a single type
alias declaration with hasExport true, and the same program without the
export keyword parses with hasExport false. -/
theorem c7_export_alias :
    parseProgram toksExportAlias =
      .ok ⟨[.TypeAliasDecl true "A" (.PrimitiveType "number")]⟩ ∧
    parseProgram toksPlainAlias =
      .ok ⟨[.TypeAliasDecl false "A" (.PrimitiveType "number")]⟩ :=
  ⟨rfl, rfl⟩

/-- Claim C8: the malformed program type A = ; fails with an UnexpectedToken
error at position 3, which is the position of the semicolon token, and no
program value is produced. -/
theorem c8_malformed_alias :
    parseProgram toksBadAlias = .error ⟨.unexpectedToken, 3⟩ ∧
    toksBadAlias.drop 3 = [puncTok ";" 3] :=
  ⟨rfl, rfl⟩

/-- Claim C9: the program assembler always succeeds: on any token stream it
returns a some result; when no statement matches at the start it returns the
empty program with the whole stream as remainder; when a statement matches,
the program starts with that statement; and on the empty stream it returns
the empty program. -/
theorem c9_program_total :
    (∀ (n : Nat) (ts : List Token), ((PROGRAM n) ts).result.isSome = true) ∧
    (∀ (n : Nat) (ts : List Token), ((STAT n) ts).result = none →
        ((PROGRAM n) ts).result = some (⟨[]⟩, ts)) ∧
    (∀ (n : Nat) (ts : List Token) (s : Statement) (r : List Token),
        ((STAT n) ts).result = some (s, r) →
        ∃ tail rest, ((PROGRAM n) ts).result = some (⟨s :: tail⟩, rest)) ∧
    ((PROGRAM 1) ([] : List Token)).result = some (⟨[]⟩, []) := by
  refine ⟨?_, ?_, ?_, rfl⟩
  · intro n ts
    simp [PROGRAM, apply, rep_sc]
  · intro n ts hnone
    simp [PROGRAM, apply, rep_sc, repAux, hnone, applyProgram]
  · intro n ts s r hsome
    refine ⟨(repAux (STAT n) ts.length r).1, (repAux (STAT n) ts.length r).2.1, ?_⟩
    simp [PROGRAM, apply, rep_sc, repAux, hsome, applyProgram]

/-- Witness for claim C9: a stream headed by a bare identifier matches no
statement form, so the assembler returns the empty program with the stream
untouched. -/
theorem c9_program_total_witness :
    ((PROGRAM 1) [identTok "x" 0]).result = some (⟨[]⟩, [identTok "x" 0]) :=
  c9_program_total.2.1 1 [identTok "x" 0] (by rfl)

/-- Claim C10: the contextual keyword type is accepted wherever the
IDENTIFIER rule is used, namely as a type alias name, as a qualified type
reference segment and as an object property name, but it is rejected in the
three statement positions that require a plain identifier token: the
require-import name, the namespace-import name and the named-import list. -/
theorem c10_contextual_type_keyword :
    parseProgram toksTypeType =
      .ok ⟨[.TypeAliasDecl false "type" (.PrimitiveType "number")]⟩ ∧
    ((TYPE 1) toksDotType).result =
      some (.TypeReference (.qualified (.ident "a") "type") [], []) ∧
    ((TYPE 2) toksObjTypeProp).result =
      some (.ObjectType false [] [.Prop' false "type" false (.PrimitiveType "number")], []) ∧
    parseFails toksConstRequire = true ∧
    parseFails toksImportStar = true ∧
    parseFails toksImportBrace = true :=
  ⟨rfl, rfl, rfl, rfl, rfl, rfl⟩

end MinFlow
